import Mathlib

/-!
Shallow embedding of the batch worker of the Video-Depth-Anything GUI
(`src/VDA_gui.py`, method `process_videos_threaded`) and of the external
encoding helper (`src/utils/h26x_utils.py`, function `run_h26x_encoding`).

Modelling conventions:
* Messages put on the GUI queue via `write_event_value(key, value)` become the
  inductive `Msg`; the file a message is about is identified by its position in
  the batch (the Python code embeds the basename in the text instead).
* External fallible operations (video decode, model inference, file writes)
  are modelled by boolean outcome fields: `true` means the Python call returns
  normally, `false` means it raises.  An exception that the Python code does
  not catch is modelled by the `Bool` component of the result pair being
  `true` (the worker thread body terminates there; any messages already queued
  stay queued, and no further message is emitted).
* Depth values (numpy float arrays) are modelled as rational numbers; a depth
  sequence is a list of frames, each frame a list of pixel values (the spatial
  2-D arrangement of a frame is irrelevant to the claims about inversion,
  normalization and raw artifacts, so a frame is flattened to one list).
-/

namespace VDA

/-- Kinds of error notification the worker sends with the `-ERROR-` key
(`write_event_value('-ERROR-', ...)` call sites in `process_videos_threaded`
and the move-failure handler). -/
inductive ErrKind where
  | badPath
  | noVideos
  | noInput
  | checkpointMissing
  | modelLoad
  | readFrames
  | inference
  | saveOutputs
  | moveFile
deriving DecidableEq, Repr

/-- Messages placed on `self.update_queue` by the worker thread.  `error`
carries the index of the file it is about (`none` for configuration errors
raised before the batch loop). `done true` is `('-THREAD_DONE-', 'Stopped')`,
`done false` is `('-THREAD_DONE-', 'Completed')`. -/
inductive Msg where
  | setMax (n : Nat)
  | statusLoading
  | statusFile (i : Nat)
  | error (k : ErrKind) (file : Option Nat)
  | progress (v : Nat)
  | done (stopped : Bool)
deriving DecidableEq, Repr

/-- The individual statements inside the big output-saving `try` block
(lines 626-694 of `VDA_gui.py`), in program order.  `mkFinished` is the
`os.makedirs(finished_dir)` call; `move` is the `shutil.move` call, which is
the only statement with its own inner `try`. -/
inductive OutStep where
  | src
  | vis
  | npz
  | exr
  | png
  | mkFinished
  | move
deriving DecidableEq, Repr

/-- The output-related configuration flags read from the `values` dict. -/
structure OutCfg where
  createSrc : Bool
  saveNpz : Bool
  saveExr : Bool
  savePng : Bool
  resume : Bool
  invert : Bool
  png16 : Bool
deriving DecidableEq, Repr

/-- The sequence of output-writing steps the big `try` block executes for one
file under configuration `cfg`, in the order they appear in the source:
source clip (if enabled), depth visualization video (always), npz archive,
EXR frames, PNG frames, and finally `makedirs(finished)` plus `shutil.move`
when resume is enabled. -/
def configuredSteps (cfg : OutCfg) : List OutStep :=
  (if cfg.createSrc then [OutStep.src] else []) ++
  [OutStep.vis] ++
  (if cfg.saveNpz then [OutStep.npz] else []) ++
  (if cfg.saveExr then [OutStep.exr] else []) ++
  (if cfg.savePng then [OutStep.png] else []) ++
  (if cfg.resume then [OutStep.mkFinished, OutStep.move] else [])

/-- Execution of the output-writing steps: `fails s = true` means the Python
statement for step `s` raises.  All steps live in one shared `try` whose
`except` emits a single `'Error saving outputs'` notification, so the first
failing step aborts the remaining ones — except `shutil.move`, which has its
own inner `try` that emits a `'Failed to move'` notification and falls
through.  Returns the list of attempted steps and the emitted error kinds. -/
def runSteps (fails : OutStep → Bool) : List OutStep → List OutStep × List ErrKind
  | [] => ([], [])
  | s :: rest =>
    if fails s then
      if s = OutStep.move then
        let r := runSteps fails rest
        (s :: r.1, ErrKind.moveFile :: r.2)
      else
        ([s], [ErrKind.saveOutputs])
    else
      let r := runSteps fails rest
      (s :: r.1, r.2)

/-- Per-file outcomes of the fallible operations in one iteration of the
batch loop.  `decodeOk` is `read_video_frames` (guarded, lines 582-587);
`stackOk` is `np.stack(frames, axis=0)` (line 590, NOT inside any `try`);
`inferOk` is the inference block (guarded, lines 593-618); `mkOutDirOk` is
`os.makedirs(output_dir)` (lines 621-622, NOT inside any `try`);
`stepFails` gives the outcome of each output-writing step. -/
structure FileOutcome where
  decodeOk : Bool
  stackOk : Bool
  inferOk : Bool
  mkOutDirOk : Bool
  stepFails : OutStep → Bool

/-- Messages emitted while processing one file (everything after the
`-STATUS_UPDATE-` of the loop iteration), plus a flag that is `true` when an
exception escaped the iteration body (killing the worker thread).  Mirrors
lines 582-696 of `VDA_gui.py`: a decode or inference failure emits an error
and a progress update and moves on; `np.stack` and `os.makedirs(output_dir)`
failures are uncaught; the output steps run under their shared guard and the
progress update at line 696 is always reached otherwise. -/
def fileMsgs (cfg : OutCfg) (o : FileOutcome) (i : Nat) : List Msg × Bool :=
  if o.decodeOk then
    if o.stackOk then
      if o.inferOk then
        if o.mkOutDirOk then
          let r := runSteps o.stepFails (configuredSteps cfg)
          ((r.2.map (fun k => Msg.error k (some i))) ++ [Msg.progress (i + 1)], false)
        else ([], true)
      else ([Msg.error ErrKind.inference (some i), Msg.progress (i + 1)], false)
    else ([], true)
  else ([Msg.error ErrKind.readFrames (some i), Msg.progress (i + 1)], false)

/-- The batch loop (lines 575-696): before each file the stop event is
checked (`done true` = `'Stopped'`, returning immediately); otherwise a
status message is emitted and the file is processed; after the last file the
cleanup runs and `done false` = `'Completed'` is emitted (line 710).
`fuel` is the number of files still to process, `i` the current index. -/
def loopFiles (cfg : OutCfg) (oc : Nat → FileOutcome) (stop : Nat → Bool) :
    Nat → Nat → List Msg × Bool
  | _, 0 => ([Msg.done false], false)
  | i, fuel + 1 =>
    if stop i then ([Msg.done true], false)
    else
      let fm := fileMsgs cfg (oc i) i
      if fm.2 then (Msg.statusFile i :: fm.1, true)
      else
        let rest := loopFiles cfg oc stop (i + 1) fuel
        (Msg.statusFile i :: fm.1 ++ rest.1, rest.2)

/-- Outcome of the model-construction-and-checkpoint-load `try` block
(lines 558-569): success, `FileNotFoundError` (missing checkpoint), or any
other exception. -/
inductive LoadResult where
  | ok
  | fileNotFound
  | otherError
deriving DecidableEq, Repr

/-- The inputs and environment of one worker run: the `-INPUT_FILE-` /
`-INPUT_FOLDER-` values, the filesystem predicates used by the path
validation, the folder listing of recognized video files, the model-load
outcome, the output configuration, the per-file outcomes and the stop flag
as sampled at each file boundary. -/
structure WorkerEnv where
  inputFile : Option String
  inputFolder : Option String
  isDir : String → Bool
  isFile : String → Bool
  videosIn : String → List String
  modelLoad : LoadResult
  cfg : OutCfg
  oc : Nat → FileOutcome
  stop : Nat → Bool

/-- Resolution of `files_to_process` (lines 492-550): an explicit file wins;
a folder path that is not a directory but is a file is treated as a file; a
folder is listed for video files and an empty result is an error; no input at
all is the `'Logic Error'` case. -/
def resolveFiles (e : WorkerEnv) : Except ErrKind (List String) :=
  match e.inputFile with
  | some f => Except.ok [f]
  | none =>
    match e.inputFolder with
    | some d =>
      if e.isDir d then
        let vs := e.videosIn d
        if vs.isEmpty then Except.error ErrKind.noVideos
        else Except.ok (vs.map (fun f => d ++ "/" ++ f))
      else if e.isFile d then Except.ok [d]
      else Except.error ErrKind.badPath
    | none => Except.error ErrKind.noInput

/-- The whole worker body `process_videos_threaded`: path resolution, the
`'Loading model...'` status, checkpoint loading, `-SET_MAX-`, then the batch
loop.  Note that each early-error `return` (bad path, empty folder, missing
checkpoint, model-load failure) emits only an `-ERROR-` message and never a
`-THREAD_DONE-` message.  The `Bool` is `true` when an uncaught exception
escaped the thread body. -/
def worker (e : WorkerEnv) : List Msg × Bool :=
  match resolveFiles e with
  | Except.error k => ([Msg.error k none], false)
  | Except.ok files =>
    match e.modelLoad with
    | LoadResult.fileNotFound =>
      ([Msg.statusLoading, Msg.error ErrKind.checkpointMissing none], false)
    | LoadResult.otherError =>
      ([Msg.statusLoading, Msg.error ErrKind.modelLoad none], false)
    | LoadResult.ok =>
      let n := files.length
      let r := loopFiles e.cfg e.oc e.stop 0 n
      (Msg.statusLoading :: Msg.setMax n :: r.1, r.2)

/-- Predicate: is a progress-advance (`-PROGRESS_UPDATE-`) message. -/
def isProgress : Msg → Bool
  | Msg.progress _ => true
  | _ => false

/-- Predicate: is an error (`-ERROR-`) message. -/
def isError : Msg → Bool
  | Msg.error _ _ => true
  | _ => false

/-- Predicate: is a terminal (`-THREAD_DONE-`) message. -/
def isDone : Msg → Bool
  | Msg.done _ => true
  | _ => false

/-- A file whose every fallible operation succeeds. -/
def allOkOutcome : FileOutcome :=
  { decodeOk := true, stackOk := true, inferOk := true, mkOutDirOk := true
    stepFails := fun _ => false }

/-- A file whose `read_video_frames` call raises (corrupt/unreadable video);
everything else would succeed. -/
def decodeFailOutcome : FileOutcome :=
  { decodeOk := false, stackOk := true, inferOk := true, mkOutDirOk := true
    stepFails := fun _ => false }

/-- A representative output configuration (the GUI defaults: resume on,
everything else off). -/
def cfgDefault : OutCfg :=
  { createSrc := false, saveNpz := false, saveExr := false, savePng := false
    resume := true, invert := false, png16 := false }

/-! ### Depth values

A depth sequence (`depths`, a numpy float array of shape T x H x W) is
modelled as a list of frames, each frame the flattened list of its pixel
values as rationals.  `numpy.ndarray.max` / `.min` range over all elements of
the whole sequence. -/

/-- All pixel values of a depth sequence, in order. -/
def flattenD (d : List (List ℚ)) : List ℚ := d.flatten

/-- `numpy` maximum of a list of values (the Python call errors on an empty
array; the `[]` case is junk and is never relied upon). -/
def listMax : List ℚ → ℚ
  | [] => 0
  | [x] => x
  | x :: y :: t => max x (listMax (y :: t))

/-- `numpy` minimum of a list of values (same remark about `[]`). -/
def listMin : List ℚ → ℚ
  | [] => 0
  | [x] => x
  | x :: y :: t => min x (listMin (y :: t))

/-- The visualization inversion `depths_vis = depths_vis.max() - depths_vis`
(line 640 of `VDA_gui.py`): every pixel is replaced by the sequence-wide
maximum (recomputed from the array being transformed) minus the pixel. -/
def invertVis (d : List (List ℚ)) : List (List ℚ) :=
  let m := listMax (flattenD d)
  d.map (List.map (fun x => m - x))

/-- C-style float-to-unsigned-integer conversion as performed by
`ndarray.astype(np.uint8)` / `astype(np.uint16)` on in-range values:
truncation toward zero (floor for nonnegative input, ceiling for negative
input). -/
def truncTowardZero (q : ℚ) : ℤ :=
  if 0 ≤ q then ⌊q⌋ else ⌈q⌉

/-- One pixel of the normalized PNG output (lines 666-674):
`(depth - d_min) / (d_max - d_min) * scale` followed by the integer
conversion, where `scale` is `255` for 8-bit and `65535` for 16-bit mode. -/
def pngValue (dmin dmax scale x : ℚ) : ℤ :=
  truncTowardZero ((x - dmin) / (dmax - dmin) * scale)

/-- The whole normalized PNG sequence for one file: `d_min`/`d_max` are
computed once from the full depth sequence, then every frame is rescaled. -/
def pngFrames (sixteen : Bool) (depths : List (List ℚ)) : List (List ℤ) :=
  let dmin := listMin (flattenD depths)
  let dmax := listMax (flattenD depths)
  let scale : ℚ := if sixteen then 65535 else 255
  depths.map (List.map (pngValue dmin dmax scale))

/-- The data content of the artifacts produced for one file by the
output-saving block (lines 626-678): the frames fed to the depth
visualization video, and the optional npz / EXR / PNG payloads. -/
structure Artifacts where
  vis : List (List ℚ)
  npz : Option (List (List ℚ))
  exr : Option (List (List ℚ))
  png : Option (List (List ℤ))
deriving DecidableEq, Repr

/-- What the output-saving block computes from the depth sequence:
`depths_vis = depths.copy()`, inverted only when the invert flag is set and
used only for the visualization video; the npz archive stores `depths`
itself, the EXR files store the raw frames of `depths`, and the PNGs store
the normalization of `depths`. -/
def buildArtifacts (cfg : OutCfg) (depths : List (List ℚ)) : Artifacts :=
  let depths_vis := if cfg.invert then invertVis depths else depths
  { vis := depths_vis
    npz := if cfg.saveNpz then some depths else none
    exr := if cfg.saveExr then some depths else none
    png := if cfg.savePng then some (pngFrames cfg.png16 depths) else none }

/-! ### Test-time augmentation (lines 594-613)

Here the 2-D pixel layout matters because of the horizontal flip, so a frame
is a list of rows.  An RGB pixel is a triple of channel values; a depth map
is a list of rows of single values.  The inference engine is an external
collaborator and is a parameter. -/

/-- An RGB pixel. -/
abbrev Pixel := ℚ × ℚ × ℚ

/-- A decoded video frame: rows of RGB pixels. -/
abbrev Frame := List (List Pixel)

/-- A depth map: rows of depth values. -/
abbrev DMap := List (List ℚ)

/-- `np.flip(frame, axis=1)`: reverse each row. -/
def flipFrame (f : Frame) : Frame := f.map List.reverse

/-- `np.flip(depth, axis=1)`: reverse each row. -/
def flipDMap (d : DMap) : DMap := d.map List.reverse

/-- Element-wise `(d_orig + d_flip) / 2` of two depth maps. -/
def avgMap (a b : DMap) : DMap :=
  List.zipWith (fun ra rb => List.zipWith (fun x y => (x + y) / 2) ra rb) a b

/-- The TTA branch: infer on the original frames, infer on the horizontally
flipped frames, flip those depths back, and average per frame per pixel
(`depths_list = [(d_orig + d_flip) / 2 for ... in zip(...)]`). -/
def ttaDepths (engine : List Frame → List DMap) (frames : List Frame) :
    List DMap :=
  let depths_original := engine frames
  let depths_flipped := engine (frames.map flipFrame)
  let depths_flipped_back := depths_flipped.map flipDMap
  List.zipWith avgMap depths_original depths_flipped_back

/-- The row-length profile of a depth map (its dimensions: number of rows
and width of each row). -/
def shapeD (d : DMap) : List Nat := d.map List.length

/-- The row-length profile of a frame. -/
def shapeF (f : Frame) : List Nat := f.map List.length

/-- Option-valued pixel accessor: frame `i`, row `j`, column `k`. -/
def getPix (d : List DMap) (i j k : Nat) : Option ℚ :=
  d[i]?.bind fun f => f[j]?.bind fun r => r[k]?

/-! ### External encoding helper (`src/utils/h26x_utils.py`) -/

/-- Messages `run_h26x_encoding` sends through its `write_event_value`
callback. -/
inductive EncMsg where
  | statusComplete
  | errUnknownCodec
  | errFfmpegFailed
  | errFfmpegMissing
deriving DecidableEq, Repr

/-- Outcome of the `subprocess.run` call on the ffmpeg command: normal exit,
`CalledProcessError` (non-zero exit), or `FileNotFoundError` (ffmpeg absent
from the environment). -/
inductive FfmpegResult where
  | ok
  | nonzeroExit
  | missing
deriving DecidableEq, Repr

/-- Result of one call of the encoding helper: the messages sent through the
callback and the subprocess command lines it attempted to execute. -/
structure EncRun where
  msgs : List EncMsg
  invocations : List (List String)
deriving DecidableEq, Repr

/-- The `codec_map` table (lines 20-25 of `h26x_utils.py`): codec, profile,
pixel format and 10-bit flag for each supported codec mode; `none` models the
`KeyError` branch for any other key. -/
def codec_map (mode : String) : Option (String × String × String × Bool) :=
  if mode = "libx264 (8-bit)" then some ("libx264", "high", "yuv420p", false)
  else if mode = "libx265 (10-bit)" then some ("libx265", "main10", "yuv420p10le", true)
  else if mode = "nvenc_h264 (8-bit)" then some ("h264_nvenc", "high", "yuv420p", false)
  else if mode = "nvenc_h265 (10-bit)" then some ("hevc_nvenc", "main10", "yuv420p10le", true)
  else none

/-- The selected (codec, profile, pixel-format, container-tag) tuple for a
codec mode; the tag is `hvc1` for the 10-bit modes and `avc1` otherwise
(line 64 of `h26x_utils.py`). -/
def selectedTuple (mode : String) : Option (String × String × String × String) :=
  (codec_map mode).map fun t =>
    (t.1, t.2.1, t.2.2.1, if t.2.2.2 then "hvc1" else "avc1")

/-- `run_h26x_encoding`: codec lookup, command construction, and the
subprocess invocation whose outcome is the external parameter `ffmpeg`.
An unknown codec mode emits one error through the callback and returns
before any command is built or executed. -/
def run_h26x_encoding (input_dir output_path codec_mode : String)
    (fps crf : ℤ) (invert_vis : Bool) (ffmpeg : FfmpegResult) : EncRun :=
  match codec_map codec_mode with
  | none => { msgs := [EncMsg.errUnknownCodec], invocations := [] }
  | some (codec, profile, pix_fmt, is_10bit) =>
    let input_args := ["-y", "-i", input_dir ++ "/frame_%05d.png", "-r", toString fps]
    let filter_args :=
      if invert_vis then ["-vf", "format=gray, lut=curve=opposit"]
      else ["-vf", "format=gray"]
    let output_args :=
      ["-vcodec", codec, "-pix_fmt", pix_fmt, "-crf", toString crf,
       "-profile:v", profile, "-tag:v", if is_10bit then "hvc1" else "avc1",
       output_path]
    let command := ["ffmpeg"] ++ input_args ++ filter_args ++ output_args
    match ffmpeg with
    | FfmpegResult.ok =>
      { msgs := [EncMsg.statusComplete], invocations := [command] }
    | FfmpegResult.nonzeroExit =>
      { msgs := [EncMsg.errFfmpegFailed], invocations := [command] }
    | FfmpegResult.missing =>
      { msgs := [EncMsg.errFfmpegMissing], invocations := [command] }

/-! ### Concrete fixtures used by counterexamples and witnesses -/

/-- A file whose decode and inference succeed but whose
`np.stack(frames, axis=0)` call raises (e.g. the decoder returned an empty
frame list). -/
def stackCrashOutcome : FileOutcome :=
  { decodeOk := true, stackOk := false, inferOk := true, mkOutDirOk := true
    stepFails := fun _ => false }

/-- Configuration with the source clip and the npz archive enabled. -/
def cfgSrcNpz : OutCfg :=
  { createSrc := true, saveNpz := true, saveExr := false, savePng := false
    resume := false, invert := false, png16 := false }

/-- Failure pattern: only the source-clip write raises. -/
def failsSrc : OutStep → Bool
  | OutStep.src => true
  | _ => false

/-- Run environment whose input path is neither a file nor a directory. -/
def envBadPath : WorkerEnv :=
  { inputFile := none, inputFolder := some "missing"
    isDir := fun _ => false, isFile := fun _ => false
    videosIn := fun _ => [], modelLoad := LoadResult.ok, cfg := cfgDefault
    oc := fun _ => allOkOutcome, stop := fun _ => false }

/-- Run environment whose input folder contains no recognized video file. -/
def envEmptyFolder : WorkerEnv :=
  { inputFile := none, inputFolder := some "empty"
    isDir := fun _ => true, isFile := fun _ => false
    videosIn := fun _ => [], modelLoad := LoadResult.ok, cfg := cfgDefault
    oc := fun _ => allOkOutcome, stop := fun _ => false }

/-- Run environment whose model checkpoint file is absent. -/
def envNoCheckpoint : WorkerEnv :=
  { inputFile := some "clip.mp4", inputFolder := none
    isDir := fun _ => false, isFile := fun _ => true
    videosIn := fun _ => [], modelLoad := LoadResult.fileNotFound
    cfg := cfgDefault, oc := fun _ => allOkOutcome, stop := fun _ => false }

/-- Per-file outcomes for a batch in which exactly file `k` fails to decode
and every other file succeeds completely. -/
def ocOneBad (k : Nat) : Nat → FileOutcome :=
  fun j => if j = k then decodeFailOutcome else allOkOutcome

/-- Run environment for a folder batch over `names` in which exactly file
`k` is corrupt (its decode raises) and no stop is ever requested. -/
def envOneBad (names : List String) (k : Nat) : WorkerEnv :=
  { inputFile := none, inputFolder := some "d"
    isDir := fun _ => true, isFile := fun _ => false
    videosIn := fun _ => names, modelLoad := LoadResult.ok, cfg := cfgDefault
    oc := ocOneBad k, stop := fun _ => false }

/-- A concrete shape-preserving inference engine (returns the red channel of
every pixel), used to instantiate the engine contract in witnesses. -/
def engineRed : List Frame → List DMap :=
  fun fs => fs.map (fun f => f.map (fun row => row.map (fun p => p.1)))

/-- A concrete one-frame, one-row, two-pixel input clip. -/
def framesW : List Frame := [[[((1:ℚ), 2, 3), ((4:ℚ), 5, 6)]]]

/-! ## Helper lemmas -/

/-- When every output-writing statement succeeds, all configured steps are
attempted and no error is emitted. -/
theorem runSteps_noFail (steps : List OutStep) :
    runSteps (fun _ => false) steps = (steps, []) := by
  induction steps with
  | nil => rfl
  | cons s t ih => simp [runSteps, ih]

/-- Evaluation of `fileMsgs` on a fully successful file. -/
theorem fileMsgs_allOk (cfg : OutCfg) (i : Nat) :
    fileMsgs cfg allOkOutcome i = ([Msg.progress (i + 1)], false) := by
  simp [fileMsgs, allOkOutcome, runSteps_noFail]

/-- Evaluation of `fileMsgs` on a file whose decode raises. -/
theorem fileMsgs_decodeFail (cfg : OutCfg) (i : Nat) :
    fileMsgs cfg decodeFailOutcome i
      = ([Msg.error ErrKind.readFrames (some i), Msg.progress (i + 1)], false) := rfl

/-! ## Claim theorems -/

/-- C8 (confirmed): each of the four supported codec-mode keys selects
exactly the matching (codec, profile, pixel-format, container-tag) tuple,
and every key outside the table makes the encoding helper emit exactly one
error notification and invoke no subprocess. -/
theorem C8_codec_table :
    selectedTuple "libx264 (8-bit)" = some ("libx264", "high", "yuv420p", "avc1")
    ∧ selectedTuple "libx265 (10-bit)" = some ("libx265", "main10", "yuv420p10le", "hvc1")
    ∧ selectedTuple "nvenc_h264 (8-bit)" = some ("h264_nvenc", "high", "yuv420p", "avc1")
    ∧ selectedTuple "nvenc_h265 (10-bit)" = some ("hevc_nvenc", "main10", "yuv420p10le", "hvc1")
    ∧ ∀ (mode : String), codec_map mode = none →
        ∀ (indir outp : String) (fps crf : ℤ) (inv : Bool) (fr : FfmpegResult),
          run_h26x_encoding indir outp mode fps crf inv fr
            = { msgs := [EncMsg.errUnknownCodec], invocations := [] } := by
  refine ⟨rfl, rfl, rfl, rfl, ?_⟩
  intro mode h indir outp fps crf inv fr
  simp [run_h26x_encoding, h]

/-- Witness for C8: the unrecognized key `"mjpeg"` produces one error
message and an empty invocation list. -/
theorem C8_codec_table_witness :
    run_h26x_encoding "dir" "out.mp4" "mjpeg" 30 18 false FfmpegResult.ok
      = { msgs := [EncMsg.errUnknownCodec], invocations := [] } :=
  C8_codec_table.2.2.2.2 "mjpeg" (by decide) "dir" "out.mp4" 30 18 false FfmpegResult.ok

/-- C9 (confirmed): for a depth sequence with minimum 0.0 and maximum 10.0,
a pixel of depth 5.0 normalizes to 127 in 8-bit mode and to 32767 in 16-bit
mode — the conversion truncates toward zero, which picks the lower of the
two candidate integers 127/128 and 32767/32768. -/
theorem C9_midpoint_rounding :
    pngValue 0 10 255 5 = 127 ∧ pngValue 0 10 65535 5 = 32767 := by
  constructor <;> norm_num [pngValue, truncTowardZero]

/-- C6 (confirmed): the raw data artifacts (npz archive, EXR frames,
normalized PNG frames) are computed from the unmodified depth sequence, so
they are identical whether the invert-visualization flag is set or not; the
inversion only changes the visualization frames. -/
theorem C6_raw_artifacts_invariant (cfg : OutCfg) (depths : List (List ℚ)) :
    (buildArtifacts { cfg with invert := true } depths).npz
        = (buildArtifacts { cfg with invert := false } depths).npz
    ∧ (buildArtifacts { cfg with invert := true } depths).exr
        = (buildArtifacts { cfg with invert := false } depths).exr
    ∧ (buildArtifacts { cfg with invert := true } depths).png
        = (buildArtifacts { cfg with invert := false } depths).png
    ∧ (buildArtifacts { cfg with invert := true } depths).npz
        = (if cfg.saveNpz then some depths else none) :=
  ⟨rfl, rfl, rfl, rfl⟩

/-- C4 (code bug): on runs that end early with a configuration error — an
input path that is neither file nor directory, a folder without video files,
or a missing checkpoint — the worker emits only an `-ERROR-` message and
returns without any `-THREAD_DONE-` message, so the terminal state is
delivered zero times, not exactly once. -/
theorem C4_no_done_on_config_error :
    (worker envBadPath).1 = [Msg.error ErrKind.badPath none]
    ∧ (worker envEmptyFolder).1 = [Msg.error ErrKind.noVideos none]
    ∧ (worker envNoCheckpoint).1
        = [Msg.statusLoading, Msg.error ErrKind.checkpointMissing none]
    ∧ List.countP isDone (worker envBadPath).1 = 0
    ∧ List.countP isDone (worker envEmptyFolder).1 = 0
    ∧ List.countP isDone (worker envNoCheckpoint).1 = 0 :=
  ⟨rfl, rfl, rfl, rfl, rfl, rfl⟩

/-- C2 (corrected, counterexample): an exception raised by the frame-array
assembly `np.stack(frames, axis=0)` — which sits outside every `try` block —
escapes the worker thread body instead of being converted into an error
notification. -/
theorem C2_counterexample :
    (fileMsgs cfgDefault stackCrashOutcome 0).2 = true := rfl

/-- C2 (amended): provided the two unguarded statements — the frame-array
assembly and the output-directory creation — do not raise, every exception
in per-file processing is caught, converted to an error notification, and
the file ends with its progress-advance message. -/
theorem C2_guarded_no_escape (cfg : OutCfg) (o : FileOutcome) (i : Nat)
    (hstack : o.stackOk = true) (hmk : o.mkOutDirOk = true) :
    (fileMsgs cfg o i).2 = false
    ∧ (fileMsgs cfg o i).1.getLast? = some (Msg.progress (i + 1)) := by
  unfold fileMsgs
  rw [hstack, hmk]
  cases o.decodeOk <;> cases o.inferOk <;>
    simp [List.getLast?_concat]

/-- Witness for C2's amended theorem on a fully successful file. -/
theorem C2_guarded_no_escape_witness :
    (fileMsgs cfgDefault allOkOutcome 0).2 = false
    ∧ (fileMsgs cfgDefault allOkOutcome 0).1.getLast? = some (Msg.progress 1) :=
  C2_guarded_no_escape cfgDefault allOkOutcome 0 rfl rfl

/-- C1 (corrected, counterexample): with the source clip and the npz archive
configured, a failure while writing the source clip aborts the shared
output-saving `try` block: one file-scoped error is emitted but the npz step
(and every other remaining step) is never attempted. -/
theorem C1_counterexample :
    OutStep.npz ∈ configuredSteps cfgSrcNpz
    ∧ failsSrc OutStep.src = true
    ∧ OutStep.npz ∉ (runSteps failsSrc (configuredSteps cfgSrcNpz)).1
    ∧ (runSteps failsSrc (configuredSteps cfgSrcNpz)).2 = [ErrKind.saveOutputs] := by
  decide

/-- C1 (amended): the output-format writes share a single guard: the first
failing write (any step other than the final `shutil.move`, which has its
own inner guard) is reported as exactly one file-scoped error and all later
configured steps are skipped, not attempted. -/
theorem C1_first_failure_aborts (fails : OutStep → Bool)
    (pre post : List OutStep) (s : OutStep)
    (hpre : ∀ t ∈ pre, fails t = false) (hs : fails s = true)
    (hmv : s ≠ OutStep.move) :
    runSteps fails (pre ++ s :: post) = (pre ++ [s], [ErrKind.saveOutputs]) := by
  induction pre with
  | nil => simp [runSteps, hs, hmv]
  | cons a t ih =>
    have ha : fails a = false := hpre a (by simp)
    have ht : ∀ x ∈ t, fails x = false := fun x hx => hpre x (by simp [hx])
    simp [runSteps, ha, ih ht]

/-- Witness for C1's amended theorem: a source-clip failure yields exactly
the attempted prefix and a single save error. -/
theorem C1_first_failure_aborts_witness :
    runSteps failsSrc [OutStep.src, OutStep.vis, OutStep.npz]
      = ([OutStep.src], [ErrKind.saveOutputs]) :=
  C1_first_failure_aborts failsSrc [] [OutStep.vis, OutStep.npz] OutStep.src
    (by simp) rfl (by decide)

/-- Counting lemma for the batch loop when exactly file `k` fails to decode
and no stop is requested: no exception escapes, each of the `fuel` files
processed from index `i` contributes exactly one progress message, exactly
one error message is emitted in total when `k` lies in the processed range,
and every error message is the decode error of file `k`. -/
theorem loopFiles_oneBad (cfg : OutCfg) (k : Nat) :
    ∀ (fuel i : Nat),
      (loopFiles cfg (ocOneBad k) (fun _ => false) i fuel).2 = false
      ∧ List.countP isProgress (loopFiles cfg (ocOneBad k) (fun _ => false) i fuel).1 = fuel
      ∧ List.countP isError (loopFiles cfg (ocOneBad k) (fun _ => false) i fuel).1
          = (if i ≤ k ∧ k < i + fuel then 1 else 0)
      ∧ ∀ m ∈ (loopFiles cfg (ocOneBad k) (fun _ => false) i fuel).1,
          isError m = true → m = Msg.error ErrKind.readFrames (some k) := by
  intro fuel
  induction fuel with
  | zero =>
    intro i
    refine ⟨rfl, by simp [loopFiles, isProgress], ?_, ?_⟩
    · have h0 : ¬ (i ≤ k ∧ k < i) := by omega
      simp [loopFiles, isError, h0]
    · intro m hm
      simp [loopFiles] at hm
      subst hm
      simp [isError]
  | succ fuel ih =>
    intro i
    by_cases hik : i = k
    · subst hik
      have hfm : fileMsgs cfg (ocOneBad i i) i
          = ([Msg.error ErrKind.readFrames (some i), Msg.progress (i + 1)], false) := by
        simp [ocOneBad, fileMsgs_decodeFail]
      have hcond : (i ≤ i ∧ i < i + (fuel + 1)) := by omega
      have hcond2 : ¬ (i + 1 ≤ i ∧ i < i + 1 + fuel) := by omega
      obtain ⟨h2, hp, he, hmem⟩ := ih (i + 1)
      refine ⟨?_, ?_, ?_, ?_⟩
      · simp [loopFiles, hfm, h2]
      · simp [loopFiles, hfm, List.countP_cons, isProgress, hp]
      · simp [loopFiles, hfm, List.countP_cons, isError, he, hcond, hcond2]
      · intro m hm
        simp [loopFiles, hfm] at hm
        rcases hm with h | h | h | h
        · subst h; simp [isError]
        · subst h; intro _; rfl
        · subst h; simp [isError]
        · exact hmem m h
    · have hfm : fileMsgs cfg (ocOneBad k i) i = ([Msg.progress (i + 1)], false) := by
        simp [ocOneBad, hik, fileMsgs_allOk]
      have hcond : (i ≤ k ∧ k < i + (fuel + 1)) ↔ (i + 1 ≤ k ∧ k < i + 1 + fuel) := by omega
      obtain ⟨h2, hp, he, hmem⟩ := ih (i + 1)
      refine ⟨?_, ?_, ?_, ?_⟩
      · simp [loopFiles, hfm, h2]
      · simp [loopFiles, hfm, List.countP_cons, isProgress, hp]
      · by_cases hc : i + 1 ≤ k ∧ k < i + 1 + fuel
        · simp [loopFiles, hfm, List.countP_cons, isError, he, hc, hcond.mpr hc]
        · have hnc : ¬ (i ≤ k ∧ k < i + (fuel + 1)) := fun h => hc (hcond.mp h)
          simp [loopFiles, hfm, List.countP_cons, isError, he, hc, hnc]
      · intro m hm
        simp [loopFiles, hfm] at hm
        rcases hm with h | h | h
        · subst h; simp [isError]
        · subst h; simp [isError]
        · exact hmem m h

/-- C3 (confirmed): in a folder batch over `names` where exactly file `k`
fails to decode and every other file succeeds, the worker emits exactly one
error notification — the decode error of file `k` — and exactly
`names.length` progress-advance notifications, one per file including the
failed one. -/
theorem C3_one_error_n_progress (names : List String) (k : Nat)
    (hk : k < names.length) :
    List.countP isProgress (worker (envOneBad names k)).1 = names.length
    ∧ List.countP isError (worker (envOneBad names k)).1 = 1
    ∧ ∀ m ∈ (worker (envOneBad names k)).1, isError m = true →
        m = Msg.error ErrKind.readFrames (some k) := by
  have hne : names.isEmpty = false := by
    cases names with
    | nil => simp at hk
    | cons a t => rfl
  have hw : (worker (envOneBad names k)).1
      = Msg.statusLoading :: Msg.setMax names.length ::
          (loopFiles cfgDefault (ocOneBad k) (fun _ => false) 0 names.length).1 := by
    simp [worker, resolveFiles, envOneBad, hne]
  obtain ⟨h2, hp, he, hmem⟩ := loopFiles_oneBad cfgDefault k names.length 0
  have hcond : (0 ≤ k ∧ k < 0 + names.length) := by omega
  refine ⟨?_, ?_, ?_⟩
  · simp [hw, List.countP_cons, isProgress, hp]
  · simp [hw, List.countP_cons, isError, he, hcond]
    exact hk
  · intro m hm hErr
    rw [hw] at hm
    simp at hm
    rcases hm with h | h | h
    · subst h; simp [isError] at hErr
    · subst h; simp [isError] at hErr
    · exact hmem m h hErr

/-- Witness for C3 on a three-file batch whose second file is corrupt. -/
theorem C3_one_error_n_progress_witness :
    List.countP isProgress (worker (envOneBad ["a", "b", "c"] 1)).1 = 3
    ∧ List.countP isError (worker (envOneBad ["a", "b", "c"] 1)).1 = 1 :=
  ⟨(C3_one_error_n_progress ["a", "b", "c"] 1 (by decide)).1,
   (C3_one_error_n_progress ["a", "b", "c"] 1 (by decide)).2.1⟩

/-- Subtracting every element of a nonempty list from a constant `m` turns
its maximum into `m` minus its minimum. -/
theorem listMax_map_sub (m : ℚ) :
    ∀ l : List ℚ, l ≠ [] → listMax (l.map (fun x => m - x)) = m - listMin l := by
  intro l
  induction l with
  | nil => intro h; exact absurd rfl h
  | cons x xs ih =>
    intro _
    cases xs with
    | nil => simp [listMax, listMin]
    | cons y t =>
      have h1 := ih (List.cons_ne_nil y t)
      simp only [List.map_cons] at h1 ⊢
      calc listMax ((m - x) :: (m - y) :: List.map (fun a => m - a) t)
          = max (m - x) (listMax ((m - y) :: List.map (fun a => m - a) t)) := by
            simp [listMax]
        _ = max (m - x) (m - listMin (y :: t)) := by rw [h1]
        _ = m - min x (listMin (y :: t)) := max_sub_sub_left m x (listMin (y :: t))
        _ = m - listMin (x :: y :: t) := by simp [listMin]

/-- Flattening commutes with a pixel-wise map. -/
theorem flattenD_map (f : ℚ → ℚ) (d : List (List ℚ)) :
    flattenD (d.map (List.map f)) = (flattenD d).map f := by
  simp [flattenD]

/-- Double inversion with the maximum recomputed from the transformed array
shifts every pixel down by the original sequence minimum. -/
theorem invertVis_invertVis (d : List (List ℚ)) (h : flattenD d ≠ []) :
    invertVis (invertVis d)
      = d.map (List.map (fun x => x - listMin (flattenD d))) := by
  have h1 : invertVis d = d.map (List.map (fun x => listMax (flattenD d) - x)) := rfl
  have h2 : listMax (flattenD (invertVis d))
      = listMax (flattenD d) - listMin (flattenD d) := by
    rw [h1, flattenD_map]
    exact listMax_map_sub (listMax (flattenD d)) (flattenD d) h
  have h3 : invertVis (invertVis d)
      = (invertVis d).map
          (List.map (fun x => (listMax (flattenD d) - listMin (flattenD d)) - x)) := by
    simp only [invertVis]
    rw [← h2]
    rfl
  rw [h3, h1, List.map_map]
  congr 1
  funext fr
  simp only [Function.comp, List.map_map]
  congr 1
  funext x
  simp only [Function.comp_apply]
  ring

/-- C5 (corrected, counterexample): applying the visualization inversion
twice, with the maximum recomputed from the sequence being transformed, does
NOT reproduce the original sequence: for the sequence `[[1, 2]]` the result
is `[[0, 1]]`. -/
theorem C5_counterexample :
    invertVis (invertVis [[(1:ℚ), 2]]) ≠ [[(1:ℚ), 2]] := by
  norm_num [invertVis, flattenD, listMax, List.flatten]

/-- C5 (amended): double inversion yields every pixel shifted down by the
sequence minimum (`max − (max − x) = x` holds only when the same maximum is
reused; with the recomputed maximum the result is `x − min`); the original
sequence is reproduced exactly when the sequence minimum is 0. -/
theorem C5_double_inversion (d : List (List ℚ)) (h : flattenD d ≠ []) :
    invertVis (invertVis d)
      = d.map (List.map (fun x => x - listMin (flattenD d)))
    ∧ (listMin (flattenD d) = 0 → invertVis (invertVis d) = d) := by
  refine ⟨invertVis_invertVis d h, ?_⟩
  intro h0
  rw [invertVis_invertVis d h, h0]
  simp

/-- Witness for C5's amended theorem: a sequence with minimum 0 round-trips
under double inversion. -/
theorem C5_double_inversion_witness :
    invertVis (invertVis [[(0:ℚ), 2]]) = [[(0:ℚ), 2]] :=
  (C5_double_inversion [[(0:ℚ), 2]] (by simp [flattenD])).2
    (by norm_num [flattenD, listMin, List.flatten])

/-- The sequence minimum is a lower bound for every element. -/
theorem listMin_le_mem : ∀ (l : List ℚ), ∀ x ∈ l, listMin l ≤ x := by
  intro l
  induction l with
  | nil => intro x hx; simp at hx
  | cons a xs ih =>
    intro x hx
    cases xs with
    | nil =>
      simp at hx
      subst hx
      simp [listMin]
    | cons y t =>
      rcases List.mem_cons.mp hx with h | h
      · subst h
        simp [listMin]
      · calc listMin (a :: y :: t) ≤ listMin (y :: t) := by simp [listMin]
          _ ≤ x := ih x h

/-- The sequence maximum is an upper bound for every element. -/
theorem le_listMax_mem : ∀ (l : List ℚ), ∀ x ∈ l, x ≤ listMax l := by
  intro l
  induction l with
  | nil => intro x hx; simp at hx
  | cons a xs ih =>
    intro x hx
    cases xs with
    | nil =>
      simp at hx
      subst hx
      simp [listMax]
    | cons y t =>
      rcases List.mem_cons.mp hx with h | h
      · subst h
        simp [listMax]
      · calc x ≤ listMax (y :: t) := ih x h
          _ ≤ listMax (a :: y :: t) := by simp [listMax]

/-- The maximum of a nonempty constant list is that constant. -/
theorem listMax_const : ∀ (l : List ℚ) (c : ℚ), l ≠ [] → (∀ x ∈ l, x = c) →
    listMax l = c := by
  intro l
  induction l with
  | nil => intro c h; exact absurd rfl h
  | cons a xs ih =>
    intro c _ hc
    have ha : a = c := hc a (by simp)
    cases xs with
    | nil => simpa [listMax] using ha
    | cons y t =>
      have hx := ih c (by simp) (fun x hx => hc x (by simp [hx]))
      simp [listMax, hx, ha]

/-- The minimum of a nonempty constant list is that constant. -/
theorem listMin_const : ∀ (l : List ℚ) (c : ℚ), l ≠ [] → (∀ x ∈ l, x = c) →
    listMin l = c := by
  intro l
  induction l with
  | nil => intro c h; exact absurd rfl h
  | cons a xs ih =>
    intro c _ hc
    have ha : a = c := hc a (by simp)
    cases xs with
    | nil => simpa [listMin] using ha
    | cons y t =>
      have hx := ih c (by simp) (fun x hx => hc x (by simp [hx]))
      simp [listMin, hx, ha]

/-- Range of one normalized pixel: when the pixel lies between the sequence
bounds, the divisor is positive and the scale nonnegative, the produced
integer lies in `[0, floor scale]`. -/
theorem pngValue_mem_bounds (dmin dmax scale x : ℚ)
    (h1 : dmin ≤ x) (h2 : x ≤ dmax) (hlt : dmin < dmax) (hs : 0 ≤ scale) :
    0 ≤ pngValue dmin dmax scale x ∧ pngValue dmin dmax scale x ≤ ⌊scale⌋ := by
  have hd : (0:ℚ) < dmax - dmin := sub_pos.mpr hlt
  have ht0 : (0:ℚ) ≤ (x - dmin) / (dmax - dmin) :=
    div_nonneg (sub_nonneg.mpr h1) (le_of_lt hd)
  have ht1 : (x - dmin) / (dmax - dmin) ≤ 1 :=
    (div_le_one hd).mpr (sub_le_sub_right h2 dmin)
  have hq0 : (0:ℚ) ≤ (x - dmin) / (dmax - dmin) * scale := mul_nonneg ht0 hs
  have hqs : (x - dmin) / (dmax - dmin) * scale ≤ scale :=
    mul_le_of_le_one_left hs ht1
  have htr : pngValue dmin dmax scale x = ⌊(x - dmin) / (dmax - dmin) * scale⌋ := by
    simp [pngValue, truncTowardZero, hq0]
  rw [htr]
  exact ⟨Int.floor_nonneg.mpr hq0, Int.floor_le_floor hqs⟩

/-- C10 (confirmed): the normalized raster computation is well-defined only
for non-constant sequences: when the sequence minimum and maximum differ,
every produced 8-bit value lies in `[0, 255]` and every produced 16-bit
value lies in `[0, 65535]`; for a nonempty constant sequence the divisor
`d_max - d_min` of the unguarded division is zero, so the division-error
branch is reachable. -/
theorem C10_png_normalization :
    (∀ (sixteen : Bool) (depths : List (List ℚ)),
        listMin (flattenD depths) ≠ listMax (flattenD depths) →
        ∀ fr ∈ pngFrames sixteen depths, ∀ v ∈ fr,
          0 ≤ v ∧ v ≤ (if sixteen then 65535 else 255))
    ∧ (∀ (depths : List (List ℚ)) (c : ℚ), flattenD depths ≠ [] →
        (∀ x ∈ flattenD depths, x = c) →
        listMax (flattenD depths) - listMin (flattenD depths) = 0) := by
  constructor
  · intro sixteen depths hne fr hfr v hv
    simp only [pngFrames] at hfr
    obtain ⟨f0, hf0, rfl⟩ := List.mem_map.mp hfr
    obtain ⟨x, hx, rfl⟩ := List.mem_map.mp hv
    have hxF : x ∈ flattenD depths := by
      simp only [flattenD, List.mem_flatten]
      exact ⟨f0, hf0, hx⟩
    have h1 : listMin (flattenD depths) ≤ x := listMin_le_mem _ x hxF
    have h2 : x ≤ listMax (flattenD depths) := le_listMax_mem _ x hxF
    have hlt : listMin (flattenD depths) < listMax (flattenD depths) :=
      lt_of_le_of_ne (le_trans h1 h2) hne
    cases sixteen with
    | false =>
      have hb := pngValue_mem_bounds (listMin (flattenD depths))
        (listMax (flattenD depths)) 255 x h1 h2 hlt (by norm_num)
      have hf : ⌊(255:ℚ)⌋ = 255 := by norm_num
      simp only [Bool.false_eq_true, if_false]
      exact ⟨hb.1, by rw [← hf]; exact hb.2⟩
    | true =>
      have hb := pngValue_mem_bounds (listMin (flattenD depths))
        (listMax (flattenD depths)) 65535 x h1 h2 hlt (by norm_num)
      have hf : ⌊(65535:ℚ)⌋ = 65535 := by norm_num
      simp only [if_true]
      exact ⟨hb.1, by rw [← hf]; exact hb.2⟩
  · intro depths c hne hc
    rw [listMax_const _ c hne hc, listMin_const _ c hne hc]
    ring

/-- Witness for C10: the pixel 0 of the sequence `[[0, 10]]` normalizes into
`[0, 255]` in 8-bit mode, and the constant sequence `[[3, 3]]` has a zero
normalization divisor. -/
theorem C10_png_normalization_witness :
    (0 ≤ pngValue 0 10 255 0 ∧ pngValue 0 10 255 0 ≤ 255)
    ∧ listMax (flattenD [[(3:ℚ), 3]]) - listMin (flattenD [[(3:ℚ), 3]]) = 0 := by
  constructor
  · have hmin : listMin (flattenD [[(0:ℚ), 10]]) = 0 := by
      norm_num [flattenD, listMin, List.flatten]
    have hmax : listMax (flattenD [[(0:ℚ), 10]]) = 10 := by
      norm_num [flattenD, listMax, List.flatten]
    have h := C10_png_normalization.1 false [[(0:ℚ), 10]]
      (by rw [hmin, hmax]; norm_num)
      (List.map (pngValue (listMin (flattenD [[(0:ℚ), 10]]))
        (listMax (flattenD [[(0:ℚ), 10]])) 255) [(0:ℚ), 10])
      (by simp only [pngFrames]; exact List.mem_map_of_mem _ (by simp))
      (pngValue (listMin (flattenD [[(0:ℚ), 10]]))
        (listMax (flattenD [[(0:ℚ), 10]])) 255 0)
      (List.mem_map_of_mem _ (by simp))
    rw [hmin, hmax] at h
    simpa using h
  · exact C10_png_normalization.2 [[(3:ℚ), 3]] 3 (by simp [flattenD])
      (by intro x hx; simp [flattenD] at hx; exact hx)

/-- Flipping a depth map horizontally preserves its dimensions. -/
theorem shapeD_flip (d : DMap) : shapeD (flipDMap d) = shapeD d := by
  simp [shapeD, flipDMap, List.map_map, Function.comp, List.length_reverse]

/-- Flipping a frame horizontally preserves its dimensions. -/
theorem shapeF_flip (f : Frame) : shapeF (flipFrame f) = shapeF f := by
  simp [shapeF, flipFrame, List.map_map, Function.comp, List.length_reverse]

/-- Averaging two depth maps of the same dimensions preserves the
dimensions. -/
theorem shapeD_avgMap : ∀ (a b : DMap), shapeD a = shapeD b →
    shapeD (avgMap a b) = shapeD a := by
  intro a
  induction a with
  | nil => intro b h; simp [avgMap]
  | cons ra ta ih =>
    intro b h
    cases b with
    | nil => simp [shapeD] at h
    | cons rb tb =>
      simp only [shapeD, List.map_cons, List.cons.injEq] at h
      simp only [avgMap, List.zipWith_cons_cons, shapeD, List.map_cons,
        List.cons.injEq]
      constructor
      · simp [List.length_zipWith, h.1]
      · have := ih tb (by simpa [shapeD] using h.2)
        simpa [avgMap, shapeD] using this

/-- Frame-wise averaging of two depth sequences with equal per-frame
dimensions preserves the per-frame dimensions. -/
theorem map_shapeD_zipWith_avgMap : ∀ (A B : List DMap),
    A.map shapeD = B.map shapeD →
    (List.zipWith avgMap A B).map shapeD = A.map shapeD := by
  intro A
  induction A with
  | nil => intro B h; simp
  | cons da ta ih =>
    intro B h
    cases B with
    | nil => simp at h
    | cons db tb =>
      simp only [List.map_cons, List.cons.injEq] at h
      simp only [List.zipWith_cons_cons, List.map_cons, List.cons.injEq]
      exact ⟨shapeD_avgMap da db h.1, ih tb h.2⟩

/-- C7 (confirmed): under the engine contract that a depth sequence has the
same frame count and per-frame dimensions as its input clip, the TTA output
has the same number of frames and the same per-frame dimensions as the
augmentation-disabled output, and every augmented pixel equals the average
of the two contributing passes, hence lies between their minimum and
maximum. -/
theorem C7_tta (engine : List Frame → List DMap)
    (hshape : ∀ fs, (engine fs).map shapeD = fs.map shapeF)
    (frames : List Frame) :
    (ttaDepths engine frames).length = (engine frames).length
    ∧ (ttaDepths engine frames).map shapeD = (engine frames).map shapeD
    ∧ ∀ (i j k : Nat) (a b c : ℚ),
        getPix (engine frames) i j k = some a →
        getPix ((engine (frames.map flipFrame)).map flipDMap) i j k = some b →
        getPix (ttaDepths engine frames) i j k = some c →
        c = (a + b) / 2 ∧ min a b ≤ c ∧ c ≤ max a b := by
  have hfun : shapeD ∘ flipDMap = shapeD := funext shapeD_flip
  have hfunF : shapeF ∘ flipFrame = shapeF := funext shapeF_flip
  have hfb : ((engine (frames.map flipFrame)).map flipDMap).map shapeD
      = (engine frames).map shapeD := by
    rw [List.map_map]
    calc (engine (frames.map flipFrame)).map (shapeD ∘ flipDMap)
        = (engine (frames.map flipFrame)).map shapeD := by rw [hfun]
      _ = (frames.map flipFrame).map shapeF := hshape (frames.map flipFrame)
      _ = frames.map (shapeF ∘ flipFrame) := List.map_map ..
      _ = frames.map shapeF := by rw [hfunF]
      _ = (engine frames).map shapeD := (hshape frames).symm
  have hlen : ((engine (frames.map flipFrame)).map flipDMap).length
      = (engine frames).length := by
    have := congrArg List.length hfb
    simpa using this
  refine ⟨?_, ?_, ?_⟩
  · simp [ttaDepths, List.length_zipWith, hlen]
  · exact map_shapeD_zipWith_avgMap (engine frames)
      ((engine (frames.map flipFrame)).map flipDMap) hfb.symm
  · intro i j k a b c ha hb hc
    simp only [getPix, Option.bind_eq_some] at ha hb hc
    obtain ⟨fa, hfa, ra, hra, hxa⟩ := ha
    obtain ⟨fbm, hfbm, rb, hrb, hxb⟩ := hb
    obtain ⟨fc, hfc, rc, hrc, hxc⟩ := hc
    simp only [ttaDepths] at hfc
    obtain ⟨da, db, hda, hdb, hdc⟩ := List.getElem?_zipWith_eq_some.mp hfc
    rw [hfa] at hda
    rw [hfbm] at hdb
    cases hda
    cases hdb
    subst hdc
    simp only [avgMap] at hrc
    obtain ⟨ra2, rb2, hra2, hrb2, hrc2⟩ := List.getElem?_zipWith_eq_some.mp hrc
    rw [hra] at hra2
    rw [hrb] at hrb2
    cases hra2
    cases hrb2
    subst hrc2
    obtain ⟨x, y, hx, hy, hxy⟩ := List.getElem?_zipWith_eq_some.mp hxc
    rw [hxa] at hx
    rw [hxb] at hy
    cases hx
    cases hy
    subst hxy
    refine ⟨rfl, ?_, ?_⟩
    · rcases le_total a b with h | h
      · rw [min_eq_left h]; linarith
      · rw [min_eq_right h]; linarith
    · rcases le_total a b with h | h
      · rw [max_eq_right h]; linarith
      · rw [max_eq_left h]; linarith

/-- The concrete red-channel engine satisfies the shape contract. -/
theorem engineRed_shape : ∀ fs, (engineRed fs).map shapeD = fs.map shapeF := by
  intro fs
  simp [engineRed, shapeD, shapeF, List.map_map, Function.comp, List.length_map]

/-- Witness for C7 on the red-channel engine and a concrete one-frame
clip. -/
theorem C7_tta_witness :
    (ttaDepths engineRed framesW).length = (engineRed framesW).length
    ∧ (ttaDepths engineRed framesW).map shapeD = (engineRed framesW).map shapeD :=
  ⟨(C7_tta engineRed engineRed_shape framesW).1,
   (C7_tta engineRed engineRed_shape framesW).2.1⟩

end VDA
